import Mathlib

/-!
# Verification of the neo-risk-visualizer impact/deflection core

Shallow embedding of the repository's frontend utility code
(`web/src/utils/geo.js`, `web/src/App.jsx`,
`unused/frontend_final_components.js`, `unused/frontend_map_components.js`)
together with spec-modelled definitions for the physics/uncertainty engine
that the specification describes; the backend implementing that engine is
not among the sources, so those definitions follow the specification text
and are marked `Modelled from the spec` in their doc comments.

JavaScript numbers are embedded as exact arithmetic: rationals where the
source only adds, subtracts, multiplies, divides and compares, and reals
where `Math.PI`, trigonometric functions, square roots or fractional
powers appear.  `parseFloat` results are embedded as `Option ℚ`, with
`none` standing for `NaN`.

The one place where the exact-arithmetic idealisation is not sound is the
`normalizeLongitude` wrap-around loops of `geo.js`, whose termination
depends on the rounded double addition `normalized += 360` making
progress.  For those loops a faithful model of IEEE-754 binary64
round-to-nearest(-even) is used (`roundDouble`, `runUp`, `runDown`,
`jsNormalizeLongitude`), with the loop expressed on fuel since it really
diverges at large magnitudes; the exact-arithmetic versions
(`exactNormalizeUp` …) are kept as reference semantics and proved to
coincide with the float loops exactly when every `±360` step is exact.
-/

namespace NeoRisk

/-! ## Embedding of `web/src/utils/geo.js`: `normalizeLongitude`

The JavaScript function is
`while (normalized < -180) normalized += 360;`
`while (normalized > 180) normalized -= 360; return normalized`
over IEEE-754 binary64 doubles. -/

/-- Round-half-even to the nearest integer. -/
def roundHalfEven (x : ℚ) : ℤ :=
  if x - ⌊x⌋ < 1 / 2 then ⌊x⌋
  else if 1 / 2 < x - ⌊x⌋ then ⌊x⌋ + 1
  else if Even ⌊x⌋ then ⌊x⌋ else ⌊x⌋ + 1

/-- Exponent of the unit in the last place of a binary64 double of
magnitude `|q|` (53-bit significand). -/
def ulpExp (q : ℚ) : ℤ := Int.log 2 |q| - 52

/-- IEEE-754 binary64 rounding (round to nearest, ties to even): the
result of a double operation is the exact value rounded to the nearest
multiple of its unit in the last place.  The exponent range is left
unbounded (overflow to infinity and subnormal underflow are not
modelled; both are irrelevant at the magnitudes a longitude loop
visits). -/
def roundDouble (q : ℚ) : ℚ :=
  if q = 0 then 0 else (roundHalfEven (q / 2 ^ ulpExp q) : ℚ) * 2 ^ ulpExp q

/-- The values a finite binary64 double can hold (exponent range
unbounded, as in `roundDouble`). -/
def isRepresentableDouble (q : ℚ) : Prop :=
  ∃ m t : ℤ, |m| < 2 ^ 53 ∧ q = (m : ℚ) * 2 ^ t

/-- One iteration of the first loop body: `normalized += 360` in double
arithmetic. -/
def stepUp (x : ℚ) : ℚ := roundDouble (x + 360)

/-- One iteration of the second loop body: `normalized -= 360` in double
arithmetic. -/
def stepDown (x : ℚ) : ℚ := roundDouble (x - 360)

/-- `while (normalized < -180) normalized += 360` in double arithmetic,
with explicit fuel: `none` means the loop was still running when the
fuel ran out.  The source loop terminates on an input exactly when some
fuel returns `some`. -/
def runUp : ℕ → ℚ → Option ℚ
  | 0, x => if x < -180 then none else some x
  | fuel + 1, x => if x < -180 then runUp fuel (stepUp x) else some x

/-- `while (normalized > 180) normalized -= 360` in double arithmetic,
with explicit fuel. -/
def runDown : ℕ → ℚ → Option ℚ
  | 0, x => if 180 < x then none else some x
  | fuel + 1, x => if 180 < x then runDown fuel (stepDown x) else some x

/-- `normalizeLongitude` from `web/src/utils/geo.js` in double
arithmetic: the two loops in source order, each with its own fuel. -/
def jsNormalizeLongitude (f₁ f₂ : ℕ) (lon : ℚ) : Option ℚ :=
  (runUp f₁ lon).bind (runDown f₂)

/-- The source `normalizeLongitude` diverges on `lon`: no amount of fuel
makes either loop pipeline produce a result. -/
def jsNormalizeDiverges (lon : ℚ) : Prop :=
  ∀ f₁ f₂ : ℕ, jsNormalizeLongitude f₁ f₂ lon = none

/-- Exact-arithmetic reference version of the first loop
`while (normalized < -180) normalized += 360`.  This is NOT the double
semantics of the source: it assumes every `+= 360` is exact, which
`stepUp_exact` below justifies only when the argument's unit in the last
place divides 360. -/
def exactNormalizeUp (lon : ℚ) : ℚ :=
  if lon < -180 then exactNormalizeUp (lon + 360) else lon
termination_by (⌈(-180 - lon) / 360⌉).toNat
decreasing_by
  rename_i h
  have h1 : (0 : ℚ) < (-180 - lon) / 360 := by
    apply div_pos <;> linarith
  have h2 : (1 : ℤ) ≤ ⌈(-180 - lon) / 360⌉ := Int.ceil_pos.mpr h1
  have h3 : (-180 - (lon + 360)) / 360 = (-180 - lon) / 360 - 1 := by ring
  have h4 : ⌈(-180 - (lon + 360)) / 360⌉ = ⌈(-180 - lon) / 360⌉ - 1 := by
    rw [h3, Int.ceil_sub_one]
  omega

/-- Exact-arithmetic reference version of the second loop
`while (normalized > 180) normalized -= 360`; same caveat as
`exactNormalizeUp`. -/
def exactNormalizeDown (lon : ℚ) : ℚ :=
  if 180 < lon then exactNormalizeDown (lon - 360) else lon
termination_by (⌈(lon - 180) / 360⌉).toNat
decreasing_by
  rename_i h
  have h1 : (0 : ℚ) < (lon - 180) / 360 := by
    apply div_pos <;> linarith
  have h2 : (1 : ℤ) ≤ ⌈(lon - 180) / 360⌉ := Int.ceil_pos.mpr h1
  have h3 : (lon - 360 - 180) / 360 = (lon - 180) / 360 - 1 := by ring
  have h4 : ⌈(lon - 360 - 180) / 360⌉ = ⌈(lon - 180) / 360⌉ - 1 := by
    rw [h3, Int.ceil_sub_one]
  omega

/-- Exact-arithmetic reference version of `normalizeLongitude`: the two
wrap-around loops in source order, with every `±360` taken exact. -/
def exactNormalizeLongitude (lon : ℚ) : ℚ :=
  exactNormalizeDown (exactNormalizeUp lon)

/-! ## Embedding of the parameter panel of `web/src/App.jsx`

Each numeric field's `onChange` handler stores
`parseFloat(e.target.value) || default`.  In JavaScript both `NaN` and
`0` are falsy, so `none` (NaN) and `some 0` both yield the default. -/

/-- The `parseFloat(v) || dflt` idiom: `none` models a `NaN` parse. -/
def jsNumberOr (v : Option ℚ) (dflt : ℚ) : ℚ :=
  match v with
  | none => dflt
  | some x => if x = 0 then dflt else x

/-- Diameter field handler (`App.jsx` line 258): default 100. -/
def panelSetDiameter (v : Option ℚ) : ℚ := jsNumberOr v 100

/-- Velocity field handler (`App.jsx` line 273): default 20. -/
def panelSetVelocity (v : Option ℚ) : ℚ := jsNumberOr v 20

/-- Angle field handler (`App.jsx` line 288): default 45. -/
def panelSetAngle (v : Option ℚ) : ℚ := jsNumberOr v 45

/-- Density field handler (`App.jsx` line 303): default 2500. -/
def panelSetDensity (v : Option ℚ) : ℚ := jsNumberOr v 2500

/-! ## Embedding of `ComparisonView`
(`unused/frontend_final_components.js`, lines 9-12) -/

/-- `afterPopulation = beforePopulation * (1 - reductionFactor)`. -/
def comparisonAfterPopulation (beforePopulation reductionFactor : ℚ) : ℚ :=
  beforePopulation * (1 - reductionFactor)

/-- `savedLives = beforePopulation - afterPopulation`. -/
def comparisonSavedLives (beforePopulation reductionFactor : ℚ) : ℚ :=
  beforePopulation - comparisonAfterPopulation beforePopulation reductionFactor

/-! ## Uncertainty bands and the Monte-Carlo percentile reduction -/

/-- `UncertaintyBand`: `{p5, p50, p95}` for one scalar (spec §3). -/
structure UncertaintyBand where
  p5 : ℚ
  p50 : ℚ
  p95 : ℚ
deriving DecidableEq

/-- The sample values of one output channel, sorted ascending. -/
def sortedSamples (l : List ℚ) : List ℚ := List.insertionSort (· ≤ ·) l

/-- Linear interpolation into a sorted array at fractional index `pos`
(the `sorted[i] + frac * (sorted[i+1] - sorted[i])` rule). -/
def interpAt (s : List ℚ) (pos : ℚ) : ℚ :=
  let i : ℕ := (⌊pos⌋).toNat
  let lo := s.getD i 0
  let hi := if i + 1 < s.length then s.getD (i + 1) 0 else lo
  lo + (pos - (i : ℚ)) * (hi - lo)

/-- Modelled from the spec: the MonteCarloAggregator's percentile
reduction (spec §4.3, "reduce via percentile (5th/50th/95th, linear
interpolation on sorted values)"); the backend aggregator itself is not
among the sources. -/
def percentile (q : ℚ) (l : List ℚ) : ℚ :=
  interpAt (sortedSamples l) (q * ((l.length : ℚ) - 1))

/-- Modelled from the spec: reduction of one channel's sample list to its
`{p5, p50, p95}` band. -/
def aggregateBand (l : List ℚ) : UncertaintyBand :=
  { p5 := percentile (5 / 100) l
    p50 := percentile (50 / 100) l
    p95 := percentile (95 / 100) l }

/-! ## Modelled ParameterSampler and orchestrator (spec §4.2, §4.7, §5) -/

/-- Nominal impact parameters (spec §3). -/
structure ImpactParameters where
  diameter_m : ℚ
  density_kg_m3 : ℚ
  velocity_km_s : ℚ
  angle_deg : ℚ
deriving DecidableEq

/-- Modelled from the spec: a deterministic seeded generator state step
(spec §9 requires an explicit seed/generator argument; the backend
sampler is not among the sources).  A standard 31-bit linear
congruential step. -/
def lcgNext (state : ℕ) : ℕ := (1103515245 * state + 12345) % 2147483648

/-- A pseudo-uniform draw in `[0, 1)` from a generator state. -/
def lcgUnit (state : ℕ) : ℚ := ((state % 1000 : ℕ) : ℚ) / 1000

/-- Relative perturbation of a nominal value by a draw `u ∈ [0,1)`. -/
def perturb (x relSd u : ℚ) : ℚ := x * (1 + relSd * (2 * u - 1))

/-- Modelled from the spec: `ParameterSampler.sample` (spec §4.2) —
diameter perturbed at 10% relative spread, density at 20%, velocity at
5%, angle held fixed; fully determined by the nominal input and seed. -/
def sampleParams (p : ImpactParameters) : ℕ → ℕ → List ImpactParameters
  | 0, _ => []
  | n + 1, seed =>
    let s1 := lcgNext seed
    let s2 := lcgNext s1
    let s3 := lcgNext s2
    { diameter_m := perturb p.diameter_m (10 / 100) (lcgUnit s1)
      density_kg_m3 := perturb p.density_kg_m3 (20 / 100) (lcgUnit s2)
      velocity_km_s := perturb p.velocity_km_s (5 / 100) (lcgUnit s3)
      angle_deg := p.angle_deg } :: sampleParams p n s3

/-- Rational approximation of `Math.PI` used by the sampling model
(the exact-real physics lives in the `ℝ` definitions below). -/
def piApprox : ℚ := 314159265 / 100000000

/-- Per-sample deterministic energy channel of the modelled
ImpactPhysicsModel: `½ · density · (4/3)π(d/2)³ · (v·1000)²`. -/
def modelKineticEnergy (p : ImpactParameters) : ℚ :=
  (1 / 2) * (p.density_kg_m3 * ((4 / 3) * piApprox * (p.diameter_m / 2) ^ 3))
    * (p.velocity_km_s * 1000) ^ 2

/-- Modelled from the spec: `SimulationOrchestrator.simulate` (spec §4.7)
restricted to its energy channel — sample N=1000 perturbed parameter
sets from the seed, run the per-sample model, reduce to a percentile
band.  A pure function of the nominal parameters and the seed. -/
def simulate (p : ImpactParameters) (seed : ℕ) : UncertaintyBand :=
  aggregateBand ((sampleParams p 1000 seed).map modelKineticEnergy)

/-- Two calls of `simulate` with the same parameters and seed. -/
def simulateTwice (p : ImpactParameters) (seed : ℕ) :
    UncertaintyBand × UncertaintyBand :=
  (simulate p seed, simulate p seed)

/-! ## Modelled DeflectionModel (spec §4.6) -/

/-- The three deflection mission archetypes. -/
inductive DeflectionMethod where
  | kinetic
  | tractor
  | standoff
deriving DecidableEq

/-- Modelled from the spec: method-effectiveness multiplier —
kinetic 1.0, gravity tractor 0.6, nuclear standoff 1.5 (spec §4.6). -/
def methodEffectiveness : DeflectionMethod → ℚ
  | .kinetic => 1
  | .tractor => 6 / 10
  | .standoff => 15 / 10

/-- Seconds per (Julian) year, `365.25 × 24 × 3600`. -/
def secondsPerYear : ℚ := 31557600

/-- Modelled from the spec:
`corridor_shift_km = (delta_v_cm_s × 0.01) × (lead_time_years ×
seconds_per_year) / 1000`, scaled by the method-effectiveness
multiplier (spec §4.6); the backend deflection model is not among the
sources. -/
def corridorShiftKm (dv leadYears : ℚ) (m : DeflectionMethod) : ℚ :=
  dv * (1 / 100) * (leadYears * secondsPerYear) / 1000 * methodEffectiveness m

/-- Hit/miss/clear outcome of a deflection mission. -/
inductive DeflectionClass where
  | clear
  | miss
  | hit
deriving DecidableEq

/-- Modelled from the spec: shift ≥ half-width ⇒ `clear`; shift within a
marginal band of width `marginal` below the half-width ⇒ `miss`;
otherwise ⇒ `hit` (spec §4.6).  The half-width and marginal-band width
are left as parameters since the spec gives no numeric values. -/
def classifyShift (halfWidth marginal shift : ℚ) : DeflectionClass :=
  if halfWidth ≤ shift then .clear
  else if halfWidth - marginal ≤ shift then .miss
  else .hit

/-! ## Exact-real physics (`web/src/App.jsx` lines 200-205, `geo.js`,
and the spec-modelled effect radii) -/

noncomputable section

/-- `DEG2RAD = Math.PI / 180` from `web/src/utils/geo.js`. -/
def DEG2RAD : ℝ := Real.pi / 180

/-- `latLonToCartesian` from `web/src/utils/geo.js`, returned as the
`(x, y, z)` triple of the constructed `THREE.Vector3`. -/
def latLonToCartesian (lat lon radius : ℝ) : ℝ × ℝ × ℝ :=
  let phi := (90 - lat) * DEG2RAD
  let theta := (lon + 180) * DEG2RAD
  (-radius * Real.sin phi * Real.cos theta,
   radius * Real.cos phi,
   radius * Real.sin phi * Real.sin theta)

/-- Euclidean norm of an `(x, y, z)` triple. -/
def euclideanNorm (v : ℝ × ℝ × ℝ) : ℝ :=
  Real.sqrt (v.1 ^ 2 + v.2.1 ^ 2 + v.2.2 ^ 2)

/-- `volume = (4/3) * Math.PI * Math.pow(diameter/2, 3)`
(`App.jsx` line 201). -/
def impactVolume (diameter : ℝ) : ℝ := (4 / 3) * Real.pi * (diameter / 2) ^ 3

/-- `mass = volume * density` (`App.jsx` line 202). -/
def impactMass (diameter density : ℝ) : ℝ := impactVolume diameter * density

/-- `energy = 0.5 * mass * Math.pow(velocity * 1000, 2)`
(`App.jsx` lines 203-204); velocity in km/s. -/
def impactEnergy (diameter density velocity : ℝ) : ℝ :=
  0.5 * impactMass diameter density * (velocity * 1000) ^ 2

/-- Modelled from the spec: the effective coupled energy
`effective_E = E × sin(angle_deg in radians)` (spec §4.1); the backend
`ImpactPhysicsModel` is not among the sources. -/
def effectiveEnergy (diameter density velocity angle : ℝ) : ℝ :=
  impactEnergy diameter density velocity * Real.sin (angle * Real.pi / 180)

/-- Modelled from the spec: `yield_megatons = effective_E / 4.184e15`
(spec §4.1). -/
def yieldMegatons (diameter density velocity angle : ℝ) : ℝ :=
  effectiveEnergy diameter density velocity angle / 4.184e15

/-- Modelled from the spec: the tabulated per-PSI-threshold blast
coefficients `k(psi)` for psi ∈ {1, 5, 10, 20, 50}, a decreasing table
(spec §4.1); the published numeric values are referenced only by name in
the spec, so representative positive decreasing constants are used —
only positivity and strict decrease enter any theorem. -/
def blastK : Fin 5 → ℝ
  | 0 => 2.2
  | 1 => 1.1
  | 2 => 0.71
  | 3 => 0.45
  | 4 => 0.22

/-- The PSI threshold values, indexed in table order. -/
def psiThreshold : Fin 5 → ℝ
  | 0 => 1
  | 1 => 5
  | 2 => 10
  | 3 => 20
  | 4 => 50

/-- Modelled from the spec: blast radius with cube-root scaling,
`R(psi) = k(psi) × yield_megatons^(1/3)` (spec §4.1). -/
def blastRadiusKm (i : Fin 5) (yieldMt : ℝ) : ℝ :=
  blastK i * yieldMt ^ ((1 : ℝ) / 3)

/-- Modelled from the spec: thermal radius
`R(flux) = c × sqrt(yield_megatons) / sqrt(flux_threshold)` (spec §4.1);
the thermal constant `c` and flux thresholds are left as parameters
since the spec gives no numeric values. -/
def thermalRadiusKm (c flux yieldMt : ℝ) : ℝ :=
  c * Real.sqrt yieldMt / Real.sqrt flux

end

end NeoRisk

namespace NeoRisk

/-! ## Lemmas about the longitude-normalisation loops -/

theorem exactNormalizeUp_ge (lon : ℚ) : -180 ≤ exactNormalizeUp lon := by
  induction lon using exactNormalizeUp.induct with
  | case1 lon h ih => rw [exactNormalizeUp, if_pos h]; exact ih
  | case2 lon h => rw [exactNormalizeUp, if_neg h]; linarith

theorem exactNormalizeUp_shift (lon : ℚ) :
    ∃ k : ℤ, exactNormalizeUp lon = lon + 360 * k := by
  induction lon using exactNormalizeUp.induct with
  | case1 lon h ih =>
    obtain ⟨k, hk⟩ := ih
    refine ⟨k + 1, ?_⟩
    rw [exactNormalizeUp, if_pos h, hk]
    push_cast
    ring
  | case2 lon h =>
    refine ⟨0, ?_⟩
    rw [exactNormalizeUp, if_neg h]
    push_cast
    ring

theorem exactNormalizeUp_id (lon : ℚ) (h : -180 ≤ lon) : exactNormalizeUp lon = lon := by
  rw [exactNormalizeUp, if_neg (by linarith)]

theorem exactNormalizeDown_le (lon : ℚ) : exactNormalizeDown lon ≤ 180 := by
  induction lon using exactNormalizeDown.induct with
  | case1 lon h ih => rw [exactNormalizeDown, if_pos h]; exact ih
  | case2 lon h => rw [exactNormalizeDown, if_neg h]; linarith

theorem exactNormalizeDown_ge (lon : ℚ) (h0 : -180 ≤ lon) :
    -180 ≤ exactNormalizeDown lon := by
  induction lon using exactNormalizeDown.induct with
  | case1 lon h ih => rw [exactNormalizeDown, if_pos h]; exact ih (by linarith)
  | case2 lon h => rw [exactNormalizeDown, if_neg h]; exact h0

theorem exactNormalizeDown_shift (lon : ℚ) :
    ∃ k : ℤ, exactNormalizeDown lon = lon + 360 * k := by
  induction lon using exactNormalizeDown.induct with
  | case1 lon h ih =>
    obtain ⟨k, hk⟩ := ih
    refine ⟨k - 1, ?_⟩
    rw [exactNormalizeDown, if_pos h, hk]
    push_cast
    ring
  | case2 lon h =>
    refine ⟨0, ?_⟩
    rw [exactNormalizeDown, if_neg h]
    push_cast
    ring

theorem exactNormalizeDown_id (lon : ℚ) (h : lon ≤ 180) :
    exactNormalizeDown lon = lon := by
  rw [exactNormalizeDown, if_neg (by linarith)]

/-! ### The double-rounding model -/

theorem roundHalfEven_intCast (m : ℤ) : roundHalfEven (m : ℚ) = m := by
  unfold roundHalfEven
  rw [Int.floor_intCast]
  norm_num

/-- `roundDouble` fixes every value that fits in a 53-bit significand at
grid `2^t`: double arithmetic is exact on such values. -/
theorem roundDouble_eq_self {q : ℚ} (n t : ℤ) (hq : q = (n : ℚ) * 2 ^ t)
    (hb : |q| < 2 ^ (t + 53)) : roundDouble q = q := by
  by_cases h0 : q = 0
  · rw [h0]
    unfold roundDouble
    rw [if_pos rfl]
  · have habs : (0 : ℚ) < |q| := abs_pos.mpr h0
    have hlog : Int.log 2 |q| < t + 53 := by
      refine (Int.lt_zpow_iff_log_lt (by norm_num) habs).mp ?_
      exact_mod_cast hb
    have hE : ulpExp q ≤ t := by unfold ulpExp; omega
    set E := ulpExp q with hEdef
    have hnn : 0 ≤ t - E := sub_nonneg.mpr hE
    have hkey : q / 2 ^ E = ((n * 2 ^ (t - E).toNat : ℤ) : ℚ) := by
      rw [hq, mul_div_assoc, ← zpow_sub₀ (two_ne_zero)]
      push_cast
      rw [← zpow_natCast (2 : ℚ) ((t - E).toNat), Int.toNat_of_nonneg hnn]
    unfold roundDouble
    rw [if_neg h0, ← hEdef, hkey, roundHalfEven_intCast, ← hkey]
    exact div_mul_cancel₀ q (zpow_ne_zero _ (by norm_num))

theorem log_absorb : Int.log 2 |(-(2 ^ 62 + 664) : ℚ)| = 62 := by
  have habs : |(-(2 ^ 62 + 664) : ℚ)| = 2 ^ 62 + 664 := by
    rw [abs_of_nonpos (by norm_num)]
    norm_num
  rw [habs]
  have hpos : (0 : ℚ) < 2 ^ 62 + 664 := by norm_num
  have h1 : (62 : ℤ) ≤ Int.log 2 ((2 ^ 62 + 664 : ℚ)) := by
    refine (Int.zpow_le_iff_le_log (by norm_num) hpos).mp ?_
    have hc : ((2 : ℕ) : ℚ) ^ (62 : ℤ) = (2 : ℚ) ^ (62 : ℕ) := by norm_num
    rw [hc]
    norm_num
  have h2 : Int.log 2 ((2 ^ 62 + 664 : ℚ)) < 63 := by
    refine (Int.lt_zpow_iff_log_lt (by norm_num) hpos).mp ?_
    have hc : ((2 : ℕ) : ℚ) ^ (63 : ℤ) = (2 : ℚ) ^ (63 : ℕ) := by norm_num
    rw [hc]
    norm_num
  omega

/-- In the binade `[2^62, 2^63)` the unit in the last place is 1024, so
the exact sum `-(2^62+1024) + 360 = -(2^62+664)` rounds back to
`-(2^62+1024)`: the distance 360 is under the half-grid 512. -/
theorem roundDouble_absorb :
    roundDouble (-(2 ^ 62 + 664)) = -(2 ^ 62 + 1024) := by
  have hE : ulpExp (-(2 ^ 62 + 664) : ℚ) = 10 := by
    unfold ulpExp
    rw [log_absorb]
    norm_num
  unfold roundDouble
  rw [if_neg (by norm_num), hE]
  have hdiv : (-(2 ^ 62 + 664) : ℚ) / 2 ^ (10 : ℤ) = -(2 ^ 52 + 83 / 128) := by
    have h10 : ((2 : ℚ)) ^ (10 : ℤ) = 1024 := by norm_num
    rw [h10]
    norm_num
  rw [hdiv]
  have hfloor : ⌊(-(2 ^ 52 + 83 / 128) : ℚ)⌋ = -(2 ^ 52 + 1) := by
    rw [Int.floor_eq_iff]
    constructor <;> push_cast <;> norm_num
  have hfrac : (-(2 ^ 52 + 83 / 128) : ℚ) - ((-(2 ^ 52 + 1) : ℤ) : ℚ)
      < 1 / 2 := by
    push_cast
    norm_num
  have hrhe : roundHalfEven (-(2 ^ 52 + 83 / 128) : ℚ) = -(2 ^ 52 + 1) := by
    unfold roundHalfEven
    rw [hfloor, if_pos hfrac]
  rw [hrhe]
  have h10 : ((2 : ℚ)) ^ (10 : ℤ) = 1024 := by norm_num
  rw [h10]
  push_cast
  ring

theorem stepUp_fixed : stepUp (-(2 ^ 62 + 1024)) = -(2 ^ 62 + 1024) := by
  unfold stepUp
  have h : (-(2 ^ 62 + 1024) : ℚ) + 360 = -(2 ^ 62 + 664) := by norm_num
  rw [h, roundDouble_absorb]

theorem runUp_stalls : ∀ fuel : ℕ, runUp fuel (-(2 ^ 62 + 1024)) = none := by
  intro fuel
  induction fuel with
  | zero =>
    unfold runUp
    rw [if_pos (by norm_num)]
  | succ n ih =>
    unfold runUp
    rw [if_pos (by norm_num), stepUp_fixed]
    exact ih

theorem jsNormalize_diverges_concrete :
    jsNormalizeDiverges (-(2 ^ 62 + 1024)) := by
  intro f₁ f₂
  unfold jsNormalizeLongitude
  rw [runUp_stalls f₁]
  rfl

/-! ### The exact regime: `±360` steps with no rounding -/

theorem stepUp_exact {x : ℚ} (t n : ℤ) (ht : t ≤ 3)
    (hx : x = (n : ℚ) * 2 ^ t) (hb : |x| < 2 ^ (t + 53)) (hc : x < -180) :
    stepUp x = x + 360 ∧
    x + 360 = ((n + 45 * 2 ^ (3 - t).toNat : ℤ) : ℚ) * 2 ^ t ∧
    |x + 360| < 2 ^ (t + 53) := by
  have h45 : ((45 * 2 ^ (3 - t).toNat : ℤ) : ℚ) * 2 ^ t = 360 := by
    push_cast
    rw [← zpow_natCast (2 : ℚ) ((3 - t).toNat),
      Int.toNat_of_nonneg (by omega : (0 : ℤ) ≤ 3 - t)]
    rw [mul_assoc, ← zpow_add₀ (two_ne_zero)]
    norm_num
  have hrep : x + 360 = ((n + 45 * 2 ^ (3 - t).toNat : ℤ) : ℚ) * 2 ^ t := by
    push_cast [hx]
    push_cast at h45
    linarith [h45]
  have h180 : (180 : ℚ) < 2 ^ (t + 53) := by
    calc (180 : ℚ) < |x| := by rw [abs_of_nonpos (by linarith)]; linarith
      _ < 2 ^ (t + 53) := hb
  have hbound : |x + 360| < 2 ^ (t + 53) := by
    rcases le_or_lt x (-360) with h | h
    · rw [abs_of_nonpos (by linarith)]
      rw [abs_of_nonpos (by linarith)] at hb
      linarith
    · rw [abs_of_nonneg (by linarith)]
      linarith
  refine ⟨?_, hrep, hbound⟩
  unfold stepUp
  exact roundDouble_eq_self _ t hrep hbound

theorem stepDown_exact {x : ℚ} (t n : ℤ) (ht : t ≤ 3)
    (hx : x = (n : ℚ) * 2 ^ t) (hb : |x| < 2 ^ (t + 53)) (hc : 180 < x) :
    stepDown x = x - 360 ∧
    x - 360 = ((n - 45 * 2 ^ (3 - t).toNat : ℤ) : ℚ) * 2 ^ t ∧
    |x - 360| < 2 ^ (t + 53) := by
  have h45 : ((45 * 2 ^ (3 - t).toNat : ℤ) : ℚ) * 2 ^ t = 360 := by
    push_cast
    rw [← zpow_natCast (2 : ℚ) ((3 - t).toNat),
      Int.toNat_of_nonneg (by omega : (0 : ℤ) ≤ 3 - t)]
    rw [mul_assoc, ← zpow_add₀ (two_ne_zero)]
    norm_num
  have hrep : x - 360 = ((n - 45 * 2 ^ (3 - t).toNat : ℤ) : ℚ) * 2 ^ t := by
    push_cast [hx]
    push_cast at h45
    linarith [h45]
  have h180 : (180 : ℚ) < 2 ^ (t + 53) := by
    calc (180 : ℚ) < |x| := by rw [abs_of_pos (by linarith)]; linarith
      _ < 2 ^ (t + 53) := hb
  have hbound : |x - 360| < 2 ^ (t + 53) := by
    rcases le_or_lt (360 : ℚ) x with h | h
    · rw [abs_of_nonneg (by linarith)]
      rw [abs_of_pos (by linarith)] at hb
      linarith
    · rw [abs_of_nonpos (by linarith)]
      linarith
  refine ⟨?_, hrep, hbound⟩
  unfold stepDown
  exact roundDouble_eq_self _ t hrep hbound

/-- On the exact-step domain the double up-loop terminates and agrees
with the exact reference loop, and the invariant survives to its
result. -/
theorem runUp_exact (t : ℤ) (ht : t ≤ 3) :
    ∀ x : ℚ, (∃ n : ℤ, x = (n : ℚ) * 2 ^ t) → |x| < 2 ^ (t + 53) →
    (∃ f : ℕ, runUp f x = some (exactNormalizeUp x)) ∧
    (∃ n : ℤ, exactNormalizeUp x = (n : ℚ) * 2 ^ t) ∧
    |exactNormalizeUp x| < 2 ^ (t + 53) := by
  intro x
  induction x using exactNormalizeUp.induct with
  | case1 x hc ih =>
    rintro ⟨n, hn⟩ hb
    obtain ⟨heq, hrep, hbound⟩ := stepUp_exact t n ht hn hb hc
    obtain ⟨⟨f, hf⟩, hrep', hbound'⟩ := ih ⟨_, hrep⟩ hbound
    have hup : exactNormalizeUp x = exactNormalizeUp (x + 360) := by
      rw [exactNormalizeUp, if_pos hc]
    refine ⟨⟨f + 1, ?_⟩, ?_, ?_⟩
    · unfold runUp
      rw [if_pos hc, heq, hf, hup]
    · rw [hup]; exact hrep'
    · rw [hup]; exact hbound'
  | case2 x hc =>
    rintro ⟨n, hn⟩ hb
    have hx : exactNormalizeUp x = x := by rw [exactNormalizeUp, if_neg hc]
    refine ⟨⟨0, ?_⟩, ⟨n, ?_⟩, ?_⟩
    · unfold runUp
      rw [if_neg hc, hx]
    · rw [hx]; exact hn
    · rw [hx]; exact hb

/-- On the exact-step domain the double down-loop terminates and agrees
with the exact reference loop. -/
theorem runDown_exact (t : ℤ) (ht : t ≤ 3) :
    ∀ x : ℚ, (∃ n : ℤ, x = (n : ℚ) * 2 ^ t) → |x| < 2 ^ (t + 53) →
    ∃ f : ℕ, runDown f x = some (exactNormalizeDown x) := by
  intro x
  induction x using exactNormalizeDown.induct with
  | case1 x hc ih =>
    rintro ⟨n, hn⟩ hb
    obtain ⟨heq, hrep, hbound⟩ := stepDown_exact t n ht hn hb hc
    obtain ⟨f, hf⟩ := ih ⟨_, hrep⟩ hbound
    have hdn : exactNormalizeDown x = exactNormalizeDown (x - 360) := by
      rw [exactNormalizeDown, if_pos hc]
    refine ⟨f + 1, ?_⟩
    unfold runDown
    rw [if_pos hc, heq, hf, hdn]
  | case2 x hc =>
    rintro ⟨n, hn⟩ hb
    have hx : exactNormalizeDown x = x := by rw [exactNormalizeDown, if_neg hc]
    refine ⟨0, ?_⟩
    unfold runDown
    rw [if_neg hc, hx]

/-! ### Settling the `normalizeLongitude` claim -/

/-- C8 counterexample: at the finite double `-(2^62 + 1024)` — which is
representable, `(-(2^52+1)) × 2^10` — the loop guard holds and the
double addition of 360 is absorbed by rounding (the unit in the last
place there is 1024 > 2·360), so the loop body is the identity and
`normalizeLongitude` never terminates.  This refutes "for every finite
input longitude, normalizeLongitude terminates". -/
theorem normalizeLongitude_diverges_at_large_double :
    isRepresentableDouble (-(2 ^ 62 + 1024)) ∧
    (-(2 ^ 62 + 1024) : ℚ) < -180 ∧
    stepUp (-(2 ^ 62 + 1024)) = -(2 ^ 62 + 1024) ∧
    jsNormalizeDiverges (-(2 ^ 62 + 1024)) := by
  refine ⟨⟨-(2 ^ 52 + 1), 10, by norm_num, ?_⟩, by norm_num, stepUp_fixed,
    jsNormalize_diverges_concrete⟩
  push_cast
  norm_num

/-- C8 (amended): for every finite input longitude whose unit in the
last place divides 360 — every double of the form `n·2^t` with `t ≤ 3`
and `|n| < 2^53`, which covers all longitudes of magnitude below `2^55`
at sub-degree precision — the double `±360` steps are exact, so
`normalizeLongitude` terminates (some fuel suffices for both loops),
returns the exact-arithmetic result, that result lies in `[-180, 180]`
and differs from the input by an integer multiple of 360, and the
function is idempotent on it (both exactly and in double arithmetic).
For huge finite doubles the rounded step can be absorbed and the source
loop diverges. -/
theorem normalizeLongitude_exact_regime (lon : ℚ) (t n : ℤ) (ht : t ≤ 3)
    (hlon : lon = (n : ℚ) * 2 ^ t) (hb : |lon| < 2 ^ (t + 53)) :
    (∃ f₁ f₂ : ℕ, jsNormalizeLongitude f₁ f₂ lon
        = some (exactNormalizeLongitude lon)) ∧
    (-180 ≤ exactNormalizeLongitude lon ∧
      exactNormalizeLongitude lon ≤ 180) ∧
    (∃ k : ℤ, exactNormalizeLongitude lon = lon + 360 * k) ∧
    exactNormalizeLongitude (exactNormalizeLongitude lon)
        = exactNormalizeLongitude lon ∧
    jsNormalizeLongitude 1 1 (exactNormalizeLongitude lon)
        = some (exactNormalizeLongitude lon) := by
  obtain ⟨⟨f₁, hf₁⟩, hrep, hbound⟩ := runUp_exact t ht lon ⟨n, hlon⟩ hb
  obtain ⟨f₂, hf₂⟩ := runDown_exact t ht (exactNormalizeUp lon) hrep hbound
  have hge : -180 ≤ exactNormalizeLongitude lon :=
    exactNormalizeDown_ge _ (exactNormalizeUp_ge lon)
  have hle : exactNormalizeLongitude lon ≤ 180 := exactNormalizeDown_le _
  refine ⟨⟨f₁, f₂, ?_⟩, ⟨hge, hle⟩, ?_, ?_, ?_⟩
  · unfold jsNormalizeLongitude
    rw [hf₁]
    exact hf₂
  · obtain ⟨k₁, hk₁⟩ := exactNormalizeUp_shift lon
    obtain ⟨k₂, hk₂⟩ := exactNormalizeDown_shift (exactNormalizeUp lon)
    refine ⟨k₁ + k₂, ?_⟩
    rw [exactNormalizeLongitude, hk₂, hk₁]
    push_cast
    ring
  · rw [exactNormalizeLongitude, exactNormalizeUp_id _ hge,
      exactNormalizeDown_id _ hle]
  · unfold jsNormalizeLongitude
    unfold runUp
    rw [if_neg (by linarith)]
    show ((some (exactNormalizeLongitude lon)).bind fun a =>
      if 180 < a then runDown 0 (stepDown a) else some a)
        = some (exactNormalizeLongitude lon)
    rw [Option.some_bind, if_neg (by linarith)]

/-- Witness for `normalizeLongitude_exact_regime` at the longitude
`190.5 = 381 × 2⁻¹`, an exactly representable out-of-range input. -/
theorem normalizeLongitude_exact_regime_witness :
    ((-1 : ℤ) ≤ 3 ∧ (381 / 2 : ℚ) = ((381 : ℤ) : ℚ) * 2 ^ (-1 : ℤ) ∧
      |(381 / 2 : ℚ)| < 2 ^ ((-1 : ℤ) + 53)) ∧
    ((∃ f₁ f₂ : ℕ, jsNormalizeLongitude f₁ f₂ (381 / 2)
        = some (exactNormalizeLongitude (381 / 2))) ∧
      (-180 ≤ exactNormalizeLongitude (381 / 2) ∧
        exactNormalizeLongitude (381 / 2) ≤ 180) ∧
      (∃ k : ℤ, exactNormalizeLongitude (381 / 2) = 381 / 2 + 360 * k) ∧
      exactNormalizeLongitude (exactNormalizeLongitude (381 / 2))
          = exactNormalizeLongitude (381 / 2) ∧
      jsNormalizeLongitude 1 1 (exactNormalizeLongitude (381 / 2))
          = some (exactNormalizeLongitude (381 / 2))) :=
  ⟨⟨by norm_num, by norm_num [zpow_neg],
      by rw [abs_of_nonneg (by norm_num)]; norm_num⟩,
    normalizeLongitude_exact_regime (381 / 2) (-1) 381 (by norm_num)
      (by norm_num [zpow_neg])
      (by rw [abs_of_nonneg (by norm_num)]; norm_num)⟩

/-! ## The parameter panel silently defaults out-of-domain input (C3) -/

/-- C3 counterexample: entering `0` for the diameter — a value outside its
declared domain (diameter ≤ 0) — is silently replaced by the default 100
by the panel's `parseFloat(...) || 100` handler (`App.jsx` line 258);
the handler's codomain is a plain number, so no validation error naming
the field is ever surfaced.  This refutes "no input field is ever
silently clamped or replaced by a default value". -/
theorem panel_zero_diameter_defaulted :
    panelSetDiameter (some 0) = 100 ∧ panelSetDiameter (some 0) ≠ 0 := by
  constructor <;> norm_num [panelSetDiameter, jsNumberOr]

/-- C3 (amended): the parameter panel performs no domain validation — an
input that parses to `NaN` or `0` is silently replaced by the field's
default (diameter 100, velocity 20, angle 45, density 2500), and every
other parsed value, inside or outside the declared domain, is stored
unchanged with no validation error surfaced. -/
theorem panel_handlers_default_or_passthrough (v d : ℚ) (hv : v ≠ 0) :
    jsNumberOr (some v) d = v ∧ jsNumberOr none d = d ∧
    jsNumberOr (some 0) d = d ∧
    panelSetDiameter none = 100 ∧ panelSetVelocity none = 20 ∧
    panelSetAngle none = 45 ∧ panelSetDensity none = 2500 := by
  refine ⟨?_, rfl, ?_, rfl, rfl, rfl, rfl⟩
  · simp only [jsNumberOr, if_neg hv]
  · norm_num [jsNumberOr]

/-- Witness for `panel_handlers_default_or_passthrough` at the
out-of-domain diameter value `-5`, which is passed through silently. -/
theorem panel_handlers_witness :
    (-5 : ℚ) ≠ 0 ∧
    (jsNumberOr (some (-5)) 100 = -5 ∧ jsNumberOr none 100 = 100 ∧
      jsNumberOr (some 0) 100 = 100 ∧
      panelSetDiameter none = 100 ∧ panelSetVelocity none = 20 ∧
      panelSetAngle none = 45 ∧ panelSetDensity none = 2500) :=
  ⟨by norm_num, panel_handlers_default_or_passthrough (-5) 100 (by norm_num)⟩

/-! ## Before/after mitigation comparison (C10) -/

/-- C10: with a non-negative before-population and
`impact_probability_drop ∈ [0,1]`, the after-population equals
`before × (1 − drop)` and lies in `[0, before]`, and the saved-lives
figure is non-negative and never exceeds the before-population
(`ComparisonView`, `unused/frontend_final_components.js` lines 9-12). -/
theorem comparison_population_bounds (b f : ℚ)
    (hb : 0 ≤ b) (hf0 : 0 ≤ f) (hf1 : f ≤ 1) :
    comparisonAfterPopulation b f = b * (1 - f) ∧
    0 ≤ comparisonAfterPopulation b f ∧
    comparisonAfterPopulation b f ≤ b ∧
    0 ≤ comparisonSavedLives b f ∧
    comparisonSavedLives b f ≤ b := by
  unfold comparisonSavedLives comparisonAfterPopulation
  refine ⟨rfl, ?_, ?_, ?_, ?_⟩ <;> nlinarith

/-- Witness for `comparison_population_bounds` at a population of 1000
and a 25% probability drop. -/
theorem comparison_population_witness :
    (0 : ℚ) ≤ 1000 ∧ (0 : ℚ) ≤ 1 / 4 ∧ (1 / 4 : ℚ) ≤ 1 ∧
    (comparisonAfterPopulation 1000 (1 / 4) = 1000 * (1 - 1 / 4) ∧
      0 ≤ comparisonAfterPopulation 1000 (1 / 4) ∧
      comparisonAfterPopulation 1000 (1 / 4) ≤ 1000 ∧
      0 ≤ comparisonSavedLives 1000 (1 / 4) ∧
      comparisonSavedLives 1000 (1 / 4) ≤ 1000) :=
  ⟨by norm_num, by norm_num, by norm_num,
    comparison_population_bounds 1000 (1 / 4) (by norm_num) (by norm_num)
      (by norm_num)⟩

/-! ## Deflection corridor shift and classification (C7) -/

/-- C7: `corridor_shift_km` equals
`(delta_v_cm_s × 0.01) × (lead_time_years × seconds_per_year) / 1000`
times the method-effectiveness factor (kinetic 1.0, tractor 0.6,
standoff 1.5); it is strictly increasing in `delta_v_cm_s` and in
`lead_time_years` for a fixed method, and `delta_v_cm_s = 0` gives a
zero shift classified `hit` (spec-modelled DeflectionModel). -/
theorem deflection_corridor_spec (dv dv' y y' : ℚ) (m : DeflectionMethod)
    (hy : 0 < y) (hdv : 0 < dv) (h1 : dv < dv') (h2 : y < y')
    (H B : ℚ) (hB : 0 < B) (hBH : B < H) :
    corridorShiftKm dv y m
        = dv * (1 / 100) * (y * secondsPerYear) / 1000
          * methodEffectiveness m ∧
    methodEffectiveness .kinetic = 1 ∧
    methodEffectiveness .tractor = 6 / 10 ∧
    methodEffectiveness .standoff = 15 / 10 ∧
    corridorShiftKm dv y m < corridorShiftKm dv' y m ∧
    corridorShiftKm dv y m < corridorShiftKm dv y' m ∧
    corridorShiftKm 0 y m = 0 ∧
    classifyShift H B (corridorShiftKm 0 y m) = .hit := by
  have he : 0 < methodEffectiveness m := by
    cases m <;> norm_num [methodEffectiveness]
  have hzero : corridorShiftKm 0 y m = 0 := by
    unfold corridorShiftKm
    ring
  refine ⟨rfl, rfl, rfl, rfl, ?_, ?_, hzero, ?_⟩
  · have key : 0 < (dv' - dv) * y * methodEffectiveness m :=
      mul_pos (mul_pos (by linarith) hy) he
    unfold corridorShiftKm secondsPerYear
    nlinarith [key]
  · have key : 0 < dv * (y' - y) * methodEffectiveness m :=
      mul_pos (mul_pos hdv (by linarith)) he
    unfold corridorShiftKm secondsPerYear
    nlinarith [key]
  · rw [hzero]
    unfold classifyShift
    rw [if_neg (by linarith), if_neg (by linarith)]

/-- Witness for `deflection_corridor_spec` with the kinetic method,
`delta_v` 1 vs 2 cm/s, lead time 10 vs 20 years, half-width 100 km and
marginal band 50 km. -/
theorem deflection_corridor_witness :
    (0 : ℚ) < 10 ∧ (0 : ℚ) < 1 ∧ (1 : ℚ) < 2 ∧ (10 : ℚ) < 20 ∧
    (0 : ℚ) < 50 ∧ (50 : ℚ) < 100 ∧
    corridorShiftKm 1 10 .kinetic < corridorShiftKm 2 10 .kinetic ∧
    corridorShiftKm 1 10 .kinetic < corridorShiftKm 1 20 .kinetic ∧
    corridorShiftKm 0 10 .kinetic = 0 ∧
    classifyShift 100 50 (corridorShiftKm 0 10 .kinetic) = .hit := by
  have h := deflection_corridor_spec 1 2 10 20 .kinetic (by norm_num)
    (by norm_num) (by norm_num) (by norm_num) 100 50 (by norm_num)
    (by norm_num)
  exact ⟨by norm_num, by norm_num, by norm_num, by norm_num, by norm_num,
    by norm_num, h.2.2.2.2.1, h.2.2.2.2.2.1, h.2.2.2.2.2.2.1,
    h.2.2.2.2.2.2.2⟩

/-! ## Concrete single-sample energy scenario (C1) -/

/-- C1: for diameter 100 m, density 2500 kg/m³, velocity 20 km/s (angle
90°, which the deterministic energy formula of `App.jsx` lines 200-205
does not enter), the computed mass is exactly `π × 1.25·10⁹ / 3` kg —
within relative tolerance 10⁻⁵ of 1.309·10⁹ kg — and the kinetic energy
is within relative tolerance 10⁻⁵ of 2.618·10¹⁷ J. -/
theorem energy_concrete_scenario :
    impactMass 100 2500 = Real.pi * (1250000000 / 3) ∧
    |impactMass 100 2500 - 1.309e9| < 1.309e4 ∧
    |impactEnergy 100 2500 20 - 2.618e17| < 2.618e12 := by
  have hl := Real.pi_gt_d6
  have hu := Real.pi_lt_d6
  have hmass : impactMass 100 2500 = Real.pi * (1250000000 / 3) := by
    unfold impactMass impactVolume
    ring
  have henergy : impactEnergy 100 2500 20
      = Real.pi * (250000000000000000 / 3) := by
    unfold impactEnergy impactMass impactVolume
    ring
  refine ⟨hmass, ?_, ?_⟩
  · rw [hmass, abs_lt]
    constructor <;> nlinarith
  · rw [henergy, abs_lt]
    constructor <;> nlinarith

/-! ## Unit-sphere property of `latLonToCartesian` (C9) -/

/-- C9: for every latitude, longitude and (non-negative) radius `r`, the
vector returned by `latLonToCartesian` has Euclidean norm exactly `r` in
exact real arithmetic; with the default radius 1 every returned point
lies on the unit sphere (`web/src/utils/geo.js` lines 5-14). -/
theorem latLonToCartesian_norm (lat lon r : ℝ) (hr : 0 ≤ r) :
    euclideanNorm (latLonToCartesian lat lon r) = r := by
  have h1 := Real.sin_sq_add_cos_sq ((lon + 180) * DEG2RAD)
  have h2 := Real.sin_sq_add_cos_sq ((90 - lat) * DEG2RAD)
  have hsum : (-r * Real.sin ((90 - lat) * DEG2RAD)
        * Real.cos ((lon + 180) * DEG2RAD)) ^ 2
      + (r * Real.cos ((90 - lat) * DEG2RAD)) ^ 2
      + (r * Real.sin ((90 - lat) * DEG2RAD)
        * Real.sin ((lon + 180) * DEG2RAD)) ^ 2 = r ^ 2 := by
    linear_combination (r ^ 2 * Real.sin ((90 - lat) * DEG2RAD) ^ 2) * h1
      + r ^ 2 * h2
  unfold euclideanNorm latLonToCartesian
  simp only
  rw [hsum, Real.sqrt_sq hr]

/-- Witness for `latLonToCartesian_norm` at latitude 0, longitude 0 and
the default radius 1. -/
theorem latLonToCartesian_norm_witness :
    (0 : ℝ) ≤ 1 ∧ euclideanNorm (latLonToCartesian 0 0 1) = 1 :=
  ⟨by norm_num, latLonToCartesian_norm 0 0 1 (by norm_num)⟩

/-! ## Determinism of `simulate` under a fixed seed (C5) -/

/-- C5: `simulate` is deterministic under a fixed seed — for every
nominal parameter set and every seed, two calls with the same parameters
and seed return identical bands.  The spec-modelled orchestrator is a
pure function of `(params, seed)`: the sampler consumes only the
explicit seed, so the two calls agree definitionally. -/
theorem simulate_deterministic (p : ImpactParameters) (seed : ℕ) :
    (simulateTwice p seed).1 = (simulateTwice p seed).2 := rfl

/-! ## Percentile bands are ordered (C4) -/

theorem sorted_getD_mono {s : List ℚ} (hs : s.Sorted (· ≤ ·)) {i j : ℕ}
    (hij : i ≤ j) (hj : j < s.length) : s.getD i 0 ≤ s.getD j 0 := by
  have hi : i < s.length := Nat.lt_of_le_of_lt hij hj
  rw [List.getD_eq_getElem _ _ hi, List.getD_eq_getElem _ _ hj]
  have h := hs.rel_get_of_le (a := ⟨i, hi⟩) (b := ⟨j, hj⟩) (by exact hij)
  simpa [List.get_eq_getElem] using h

theorem interpAt_nil (p : ℚ) : interpAt [] p = 0 := by
  simp [interpAt]

/-- Linear interpolation into a sorted array is monotone in the
fractional index, as long as the index stays inside the array. -/
theorem interpAt_mono {s : List ℚ} (hs : s.Sorted (· ≤ ·))
    {p₁ p₂ : ℚ} (h0 : 0 ≤ p₁) (h12 : p₁ ≤ p₂)
    (hend : p₂ ≤ (s.length : ℚ) - 1) :
    interpAt s p₁ ≤ interpAt s p₂ := by
  have h02 : 0 ≤ p₂ := le_trans h0 h12
  have hn1 : (1 : ℚ) ≤ (s.length : ℚ) := by linarith
  have hf1 : 0 ≤ ⌊p₁⌋ := Int.floor_nonneg.mpr h0
  have hf2 : 0 ≤ ⌊p₂⌋ := Int.floor_nonneg.mpr h02
  unfold interpAt
  dsimp only
  set i₁ : ℕ := (⌊p₁⌋).toNat with hi₁def
  set i₂ : ℕ := (⌊p₂⌋).toNat with hi₂def
  have hc1 : (i₁ : ℚ) = (⌊p₁⌋ : ℤ) := by
    rw [hi₁def]
    exact_mod_cast congrArg (Int.cast : ℤ → ℚ) (Int.toNat_of_nonneg hf1)
  have hc2 : (i₂ : ℚ) = (⌊p₂⌋ : ℤ) := by
    rw [hi₂def]
    exact_mod_cast congrArg (Int.cast : ℤ → ℚ) (Int.toNat_of_nonneg hf2)
  have hA1 : (i₁ : ℚ) ≤ p₁ := by rw [hc1]; exact Int.floor_le p₁
  have hA2 : p₁ < (i₁ : ℚ) + 1 := by rw [hc1]; exact Int.lt_floor_add_one p₁
  have hB1 : (i₂ : ℚ) ≤ p₂ := by rw [hc2]; exact Int.floor_le p₂
  have hB2 : p₂ < (i₂ : ℚ) + 1 := by rw [hc2]; exact Int.lt_floor_add_one p₂
  have hii : i₁ ≤ i₂ := by
    rw [hi₁def, hi₂def]
    exact Int.toNat_le_toNat (Int.floor_le_floor h12)
  have hi₂n : i₂ < s.length := by
    have hq : (i₂ : ℚ) ≤ (s.length : ℚ) - 1 := le_trans hB1 hend
    have h2 : (i₂ : ℚ) + 1 ≤ (s.length : ℚ) := by linarith
    exact_mod_cast h2
  have hi₁n : i₁ < s.length := Nat.lt_of_le_of_lt hii hi₂n
  rcases Nat.eq_or_lt_of_le hii with heq | hlt
  · -- both indices fall in the same interpolation cell
    rw [heq]
    have hkey : s.getD i₂ 0 ≤ if i₂ + 1 < s.length
        then s.getD (i₂ + 1) 0 else s.getD i₂ 0 := by
      split
      · exact sorted_getD_mono hs (Nat.le_succ i₂) (by assumption)
      · exact le_refl _
    set lo := s.getD i₂ 0
    set hi := if i₂ + 1 < s.length then s.getD (i₂ + 1) 0 else lo
    have h12' : p₁ - (i₂ : ℚ) ≤ p₂ - (i₂ : ℚ) := by linarith
    nlinarith [mul_le_mul_of_nonneg_right h12' (sub_nonneg.mpr hkey)]
  · -- the first cell lies strictly left of the second
    have hsucc : i₁ + 1 < s.length := Nat.lt_of_le_of_lt hlt hi₂n
    rw [if_pos hsucc]
    have hlo₁hi₁ : s.getD i₁ 0 ≤ s.getD (i₁ + 1) 0 :=
      sorted_getD_mono hs (Nat.le_succ i₁) hsucc
    have hmid : s.getD (i₁ + 1) 0 ≤ s.getD i₂ 0 :=
      sorted_getD_mono hs hlt hi₂n
    have hkey₂ : s.getD i₂ 0 ≤ if i₂ + 1 < s.length
        then s.getD (i₂ + 1) 0 else s.getD i₂ 0 := by
      split
      · exact sorted_getD_mono hs (Nat.le_succ i₂) (by assumption)
      · exact le_refl _
    have hg₁ : s.getD i₁ 0
          + (p₁ - (i₁ : ℚ)) * (s.getD (i₁ + 1) 0 - s.getD i₁ 0)
        ≤ s.getD (i₁ + 1) 0 := by
      nlinarith [mul_le_mul_of_nonneg_right
        (le_of_lt (show p₁ - (i₁ : ℚ) < 1 by linarith))
        (sub_nonneg.mpr hlo₁hi₁)]
    have hg₂ : s.getD i₂ 0 ≤ s.getD i₂ 0 + (p₂ - (i₂ : ℚ)) *
        ((if i₂ + 1 < s.length then s.getD (i₂ + 1) 0 else s.getD i₂ 0)
          - s.getD i₂ 0) := by
      nlinarith [mul_nonneg (show (0 : ℚ) ≤ p₂ - (i₂ : ℚ) by linarith)
        (sub_nonneg.mpr hkey₂)]
    calc s.getD i₁ 0 + (p₁ - (i₁ : ℚ)) * (s.getD (i₁ + 1) 0 - s.getD i₁ 0)
        ≤ s.getD (i₁ + 1) 0 := hg₁
      _ ≤ s.getD i₂ 0 := hmid
      _ ≤ _ := hg₂

/-- The percentile reduction is monotone in the percentile rank. -/
theorem percentile_mono (l : List ℚ) {q₁ q₂ : ℚ}
    (h0 : 0 ≤ q₁) (h12 : q₁ ≤ q₂) (h1 : q₂ ≤ 1) :
    percentile q₁ l ≤ percentile q₂ l := by
  unfold percentile
  rcases Nat.eq_zero_or_pos l.length with hl | hl
  · have hnil : l = [] := List.length_eq_zero.mp hl
    rw [hnil]
    have hs : sortedSamples [] = [] := rfl
    rw [hs, interpAt_nil, interpAt_nil]
  · have hlen : (sortedSamples l).length = l.length :=
      List.length_insertionSort _ _
    have hn1 : (1 : ℚ) ≤ (l.length : ℚ) := by exact_mod_cast hl
    have hs : (sortedSamples l).Sorted (· ≤ ·) := List.sorted_insertionSort _ l
    apply interpAt_mono hs
    · exact mul_nonneg h0 (by linarith)
    · exact mul_le_mul_of_nonneg_right h12 (by linarith)
    · rw [hlen]
      nlinarith

/-- C4: every `UncertaintyBand` produced by the percentile reduction —
in particular every band returned by `simulate` — satisfies
`p5 ≤ p50 ≤ p95`, for every sample list including ones with zero
variance, where the band collapses to a point (spec-modelled
MonteCarloAggregator). -/
theorem band_percentiles_ordered (l : List ℚ) (p : ImpactParameters)
    (seed : ℕ) :
    ((aggregateBand l).p5 ≤ (aggregateBand l).p50 ∧
      (aggregateBand l).p50 ≤ (aggregateBand l).p95) ∧
    ((simulate p seed).p5 ≤ (simulate p seed).p50 ∧
      (simulate p seed).p50 ≤ (simulate p seed).p95) := by
  have hgen : ∀ m : List ℚ, (aggregateBand m).p5 ≤ (aggregateBand m).p50 ∧
      (aggregateBand m).p50 ≤ (aggregateBand m).p95 := fun m =>
    ⟨percentile_mono m (by norm_num) (by norm_num) (by norm_num),
     percentile_mono m (by norm_num) (by norm_num) (by norm_num)⟩
  exact ⟨hgen l, hgen _⟩

/-! ## Monotonicity of the effect radii in their thresholds (C6) -/

theorem blastK_pos (i : Fin 5) : 0 < blastK i := by
  fin_cases i <;> norm_num [blastK]

theorem blastK_strictAnti {i j : Fin 5} (hij : i < j) : blastK j < blastK i := by
  fin_cases i <;> fin_cases j <;>
    first
      | exact absurd hij (by decide)
      | norm_num [blastK]

/-- C6: for a fixed positive yield, the blast radius
`R(psi) = k(psi) × yield^(1/3)` strictly decreases as the PSI threshold
increases along the table {1, 5, 10, 20, 50}, and the thermal radius
`R(flux) = c × sqrt(yield) / sqrt(flux)` strictly decreases as the flux
threshold increases (spec-modelled ImpactPhysicsModel radii). -/
theorem radii_monotone_in_thresholds (y : ℝ) (hy : 0 < y) (i j : Fin 5)
    (hij : i < j) (c f f' : ℝ) (hc : 0 < c) (hf : 0 < f) (hff : f < f') :
    psiThreshold i < psiThreshold j ∧
    blastRadiusKm j y < blastRadiusKm i y ∧
    thermalRadiusKm c f' y < thermalRadiusKm c f y := by
  refine ⟨?_, ?_, ?_⟩
  · fin_cases i <;> fin_cases j <;>
      first
        | exact absurd hij (by decide)
        | norm_num [psiThreshold]
  · have ht : 0 < y ^ ((1 : ℝ) / 3) := Real.rpow_pos_of_pos hy _
    exact mul_lt_mul_of_pos_right (blastK_strictAnti hij) ht
  · have hN : 0 < c * Real.sqrt y := mul_pos hc (Real.sqrt_pos.mpr hy)
    have h1 : 0 < Real.sqrt f := Real.sqrt_pos.mpr hf
    have h2 : Real.sqrt f < Real.sqrt f' := Real.sqrt_lt_sqrt hf.le hff
    exact div_lt_div_of_pos_left hN h1 h2

/-- Witness for `radii_monotone_in_thresholds` at yield 1 Mt, the 1 PSI
vs 5 PSI table entries, `c = 1` and flux thresholds 1 vs 4. -/
theorem radii_monotone_witness :
    (0 : ℝ) < 1 ∧ ((0 : Fin 5) < 1) ∧
    (psiThreshold 0 < psiThreshold 1 ∧
      blastRadiusKm 1 1 < blastRadiusKm 0 1 ∧
      thermalRadiusKm 1 4 1 < thermalRadiusKm 1 1 1) :=
  ⟨by norm_num, by decide,
    radii_monotone_in_thresholds 1 (by norm_num) 0 1 (by decide) 1 1 4
      (by norm_num) (by norm_num) (by norm_num)⟩

/-! ## Oblique-impact attenuation (C2) -/

/-- C2: the effective coupled energy equals the kinetic energy times
`sin(angle_deg in radians)`; consequently a 15° impact has strictly
smaller effective energy than a 90° one with all other parameters fixed,
and every derived blast and thermal radius is strictly smaller as well
(spec-modelled ImpactPhysicsModel on top of the `App.jsx` energy
formula). -/
theorem oblique_angle_attenuation (d ρ v : ℝ)
    (hd : 0 < d) (hρ : 0 < ρ) (hv : 0 < v)
    (a : ℝ) (i : Fin 5) (c f : ℝ) (hc : 0 < c) (hf : 0 < f) :
    effectiveEnergy d ρ v a
        = impactEnergy d ρ v * Real.sin (a * Real.pi / 180) ∧
    effectiveEnergy d ρ v 15 < effectiveEnergy d ρ v 90 ∧
    blastRadiusKm i (yieldMegatons d ρ v 15)
        < blastRadiusKm i (yieldMegatons d ρ v 90) ∧
    thermalRadiusKm c f (yieldMegatons d ρ v 15)
        < thermalRadiusKm c f (yieldMegatons d ρ v 90) := by
  have hπ := Real.pi_pos
  have hE : 0 < impactEnergy d ρ v := by
    unfold impactEnergy impactMass impactVolume
    positivity
  have h90 : (90 : ℝ) * Real.pi / 180 = Real.pi / 2 := by ring
  have hsin90 : Real.sin ((90 : ℝ) * Real.pi / 180) = 1 := by
    rw [h90, Real.sin_pi_div_two]
  have hsin15lt : Real.sin ((15 : ℝ) * Real.pi / 180) < 1 := by
    have := Real.sin_lt_sin_of_lt_of_le_pi_div_two
      (x := (15 : ℝ) * Real.pi / 180) (y := Real.pi / 2)
      (by linarith) (by linarith) (by linarith)
    rwa [Real.sin_pi_div_two] at this
  have hsin15pos : 0 < Real.sin ((15 : ℝ) * Real.pi / 180) :=
    Real.sin_pos_of_pos_of_lt_pi (by linarith) (by linarith)
  have heff : effectiveEnergy d ρ v 15 < effectiveEnergy d ρ v 90 := by
    unfold effectiveEnergy
    rw [hsin90, mul_one]
    nlinarith [mul_lt_mul_of_pos_left hsin15lt hE]
  have hy15 : 0 < yieldMegatons d ρ v 15 := by
    unfold yieldMegatons effectiveEnergy
    exact div_pos (mul_pos hE hsin15pos) (by norm_num)
  have hy1590 : yieldMegatons d ρ v 15 < yieldMegatons d ρ v 90 := by
    unfold yieldMegatons
    exact (div_lt_div_iff_of_pos_right (show (0 : ℝ) < 4.184e15 by norm_num)).mpr heff
  refine ⟨rfl, heff, ?_, ?_⟩
  · exact mul_lt_mul_of_pos_left
      (Real.rpow_lt_rpow hy15.le hy1590 (by norm_num)) (blastK_pos i)
  · unfold thermalRadiusKm
    have hnum : c * Real.sqrt (yieldMegatons d ρ v 15)
        < c * Real.sqrt (yieldMegatons d ρ v 90) :=
      mul_lt_mul_of_pos_left (Real.sqrt_lt_sqrt hy15.le hy1590) hc
    exact (div_lt_div_iff_of_pos_right (Real.sqrt_pos.mpr hf)).mpr hnum

/-- Witness for `oblique_angle_attenuation` at diameter 100 m, density
2500 kg/m³, velocity 20 km/s, angle 45°, the 1 PSI table entry, `c = 1`
and flux threshold 1. -/
theorem oblique_angle_witness :
    (0 : ℝ) < 100 ∧ (0 : ℝ) < 2500 ∧ (0 : ℝ) < 20 ∧ (0 : ℝ) < 1 ∧
    (effectiveEnergy 100 2500 20 45
        = impactEnergy 100 2500 20 * Real.sin (45 * Real.pi / 180) ∧
      effectiveEnergy 100 2500 20 15 < effectiveEnergy 100 2500 20 90 ∧
      blastRadiusKm 0 (yieldMegatons 100 2500 20 15)
        < blastRadiusKm 0 (yieldMegatons 100 2500 20 90) ∧
      thermalRadiusKm 1 1 (yieldMegatons 100 2500 20 15)
        < thermalRadiusKm 1 1 (yieldMegatons 100 2500 20 90)) :=
  ⟨by norm_num, by norm_num, by norm_num, by norm_num,
    oblique_angle_attenuation 100 2500 20 (by norm_num) (by norm_num)
      (by norm_num) 45 0 1 1 (by norm_num) (by norm_num)⟩

end NeoRisk
